import Mathlib

/-!
Shallow embedding of the accelerator-optics core of this repository
(`src/elements.py`, `src/beamline.py`, `src/twiss.py`, `src/matching.py`,
and the self-contained `day4_stability.py` script), together with proofs
of the specification's claims about it.

Python floats are embedded as real numbers; `numpy` 2x2 / 4x4 arrays as
`Matrix (Fin 2) (Fin 2) ℝ` / `Matrix (Fin 4) (Fin 4) ℝ`; Python `None`
as `Option.none`.  Where a Python method raises an exception
(`ZeroDivisionError` / `TypeError` on a thin quadrupole whose `f`
attribute is `None` or `0`, `ZeroDivisionError` on a dipole with
`rho = 0`, `NotImplementedError` for a linear matrix of a `Sextupole`,
`AttributeError` when reading a never-assigned `f_thin`), the embedding
either returns `Option.none` or is guarded by the well-formedness
predicates below, so every theorem is stated on exactly the domain where
the Python code returns a value.
-/

namespace NuclearIT

open Real Matrix

noncomputable section

/-- Threshold `1e-10` used by `elements.py` to decide that a gradient is
numerically negligible. -/
def QUAD_EPS : ℝ := 1e-10

/-- State of a constructed element of `src/elements.py`.

* `drift L` — a `Drift(L)`;
* `quad k length f f_thin` — a `Quadrupole` after `__init__`: the stored
  gradient `self.k` (always a float after a valid construction), the
  stored (clamped) `self.length`, the stored `self.f` (`None` possible),
  and the `f_thin` attribute which does not exist (`none`) until
  `Beamline.set_quadrupole_strengths` writes it;
* `dipole rho angle length` — a `Dipole` after `__init__`;
* `sext k2 length` — a `Sextupole(k2, length)`.  The class is referenced
  by `beamline.py` and the tests but its definition is absent from the
  repository; its state is modelled from the spec: nonlinear strength
  `k2` and a length, no linear transfer matrix. -/
inductive Elem : Type
  | drift (L : ℝ)
  | quad (k : ℝ) (length : ℝ) (f : Option ℝ) (f_thin : Option ℝ)
  | dipole (rho : ℝ) (angle : ℝ) (length : ℝ)
  | sext (k2 : ℝ) (length : ℝ)

namespace Elem

/-- Element length attribute `self.length`. -/
def length : Elem → ℝ
  | .drift L => L
  | .quad _ len _ _ => len
  | .dipole _ _ len => len
  | .sext _ len => len

/-- Constructor `Quadrupole(k=k, length=length)` of `elements.py`:
`self.k = k`; when `length == 0`, `self.f = 1.0/k if abs(k) > 1e-10 else
None`, otherwise `self.f = None`; finally `self.length = length if
length > 0 else 0.0`. -/
def Quadrupole.of_k (k len : ℝ) : Elem :=
  .quad k (if 0 < len then len else 0)
    (if len = 0 then (if QUAD_EPS < |k| then some (1 / k) else none) else none) none

/-- Constructor `Quadrupole(f=f, length=length)` of `elements.py`: for
`length > 0` (thick) `self.k = 1/(f*length) if abs(f) > 1e-10 else 0`
and `self.f = f`; otherwise (thin) `self.k = 0`, `self.f = f`, and the
final clamp stores `self.length = 0`. -/
def Quadrupole.of_f (f len : ℝ) : Elem :=
  if 0 < len then .quad (if QUAD_EPS < |f| then 1 / (f * len) else 0) len (some f) none
  else .quad 0 0 (some f) none

/-- Constructor `Dipole(rho, angle)` with the default
`length = rho * angle`. -/
def Dipole.of_default (rho angle : ℝ) : Elem := .dipole rho angle (rho * angle)

/-- Horizontal 2x2 transfer matrix, `matrix_x` of `elements.py`.

Branches mirror the source: a thin quadrupole is `[[1,0],[-1/f,1]]`, a
thick one is the drift matrix when `|k| < 1e-10`, the trigonometric
solution when `k > 0` and the hyperbolic one when `k < 0`; a dipole is
the bend-plane matrix; a drift is `[[1,L],[0,1]]`.

Python raises where this embedding is junk-valued: a thin quadrupole
with `f = None` (`TypeError`, here `Option.getD 0` is used) or `f = 0`
(`ZeroDivisionError`), a dipole with `rho = 0` (`ZeroDivisionError`),
and a `Sextupole` (no such method; here the zero matrix).  The predicate
`linwf` below excludes exactly these cases and guards every theorem that
uses this function. -/
def matrix_x : Elem → Matrix (Fin 2) (Fin 2) ℝ
  | .drift L => !![1, L; 0, 1]
  | .quad k len f _ =>
      if len = 0 then !![1, 0; -(1 / f.getD 0), 1]
      else if |k| < QUAD_EPS then !![1, len; 0, 1]
      else if 0 < k then
        !![Real.cos (Real.sqrt k * len), Real.sin (Real.sqrt k * len) / Real.sqrt k;
           -(Real.sqrt k * Real.sin (Real.sqrt k * len)), Real.cos (Real.sqrt k * len)]
      else
        !![Real.cosh (Real.sqrt (-k) * len), Real.sinh (Real.sqrt (-k) * len) / Real.sqrt (-k);
           Real.sqrt (-k) * Real.sinh (Real.sqrt (-k) * len), Real.cosh (Real.sqrt (-k) * len)]
  | .dipole rho angle _ =>
      !![Real.cos angle, rho * Real.sin angle; -(Real.sin angle / rho), Real.cos angle]
  | .sext _ _ => 0

/-- Vertical 2x2 transfer matrix, `matrix_y` of `elements.py`:
for a quadrupole the sign of `k` acts oppositely (thin lens gets
`+1/f`; a thick `k > 0` quadrupole is hyperbolic in `y`, a thick
`k < 0` one trigonometric with `sqrt(-k)`); a dipole acts as a drift of
its length.  The same junk-value caveats as for `matrix_x` apply and
are excluded by `linwf`. -/
def matrix_y : Elem → Matrix (Fin 2) (Fin 2) ℝ
  | .drift L => !![1, L; 0, 1]
  | .quad k len f _ =>
      if len = 0 then !![1, 0; 1 / f.getD 0, 1]
      else if |k| < QUAD_EPS then !![1, len; 0, 1]
      else if 0 < k then
        !![Real.cosh (Real.sqrt k * len), Real.sinh (Real.sqrt k * len) / Real.sqrt k;
           Real.sqrt k * Real.sinh (Real.sqrt k * len), Real.cosh (Real.sqrt k * len)]
      else
        !![Real.cos (Real.sqrt (-k) * len), Real.sin (Real.sqrt (-k) * len) / Real.sqrt (-k);
           -(Real.sqrt (-k) * Real.sin (Real.sqrt (-k) * len)), Real.cos (Real.sqrt (-k) * len)]
  | .dipole _ _ len => !![1, len; 0, 1]
  | .sext _ _ => 0

/-- Domain on which the linear matrix methods are defined in Python:
drifts always; quadrupoles except a thin one whose `f` is `None` or
zero; dipoles with `rho ≠ 0`; never a `Sextupole`. -/
def linwf : Elem → Prop
  | .drift _ => True
  | .quad _ len f _ => len = 0 → ∃ v, f = some v ∧ v ≠ 0
  | .dipole rho _ _ => rho ≠ 0
  | .sext _ _ => False

/-- Domain of the nonlinear tracking path `track_particle_nonlinear`:
a `Sextupole` uses its (total) kick map, every other element its linear
matrix. -/
def nlwf : Elem → Prop
  | .sext _ _ => True
  | e => linwf e

/-- The 4x4 transfer matrix `matrix_4d` of `elements.py`: a zero 4x4
array with the horizontal block written into rows/columns 0..1 and the
vertical block into rows/columns 2..3. -/
def matrix_4d (e : Elem) : Matrix (Fin 4) (Fin 4) ℝ :=
  !![matrix_x e 0 0, matrix_x e 0 1, 0, 0;
     matrix_x e 1 0, matrix_x e 1 1, 0, 0;
     0, 0, matrix_y e 0 0, matrix_y e 0 1;
     0, 0, matrix_y e 1 0, matrix_y e 1 1]

/-- Per-element 4D tracking, `Element.track_4d`. -/
def track_4d (e : Elem) (state : Fin 4 → ℝ) : Fin 4 → ℝ :=
  Matrix.mulVec (matrix_4d e) state

end Elem

/-- Kick map of the missing `Sextupole` class.

Modelled from the spec: the `Sextupole` class is imported by
`src/beamline.py` and exercised by `tests/test_sextupole.py` but its
definition is absent from the repository.  Per spec section 4.1, its
thin-kick map leaves the positions unchanged and adds
`dx' = -1/2 * k2 * L * (x^2 - y^2)` and `dy' = + k2 * L * x * y`
to the slopes. -/
def sextupole_kick (k2 L : ℝ) (s : Fin 4 → ℝ) : Fin 4 → ℝ :=
  ![s 0,
    s 1 - (1 / 2) * k2 * L * ((s 0) ^ 2 - (s 2) ^ 2),
    s 2,
    s 3 + k2 * L * (s 0) * (s 2)]

namespace Beamline

/-- One-turn 4x4 matrix, `Beamline.one_turn_matrix_4d`: starts at the
identity and left-multiplies each element matrix in transport order. -/
def one_turn_matrix_4d (l : List Elem) : Matrix (Fin 4) (Fin 4) ℝ :=
  l.foldl (fun M e => Elem.matrix_4d e * M) 1

/-- Horizontal 2x2 slice `M[0:2,0:2]` of a 4x4 matrix. -/
def blockX (M : Matrix (Fin 4) (Fin 4) ℝ) : Matrix (Fin 2) (Fin 2) ℝ :=
  !![M 0 0, M 0 1; M 1 0, M 1 1]

/-- Vertical 2x2 slice `M[2:4,2:4]` of a 4x4 matrix. -/
def blockY (M : Matrix (Fin 4) (Fin 4) ℝ) : Matrix (Fin 2) (Fin 2) ℝ :=
  !![M 2 2, M 2 3; M 3 2, M 3 3]

/-- Stability check `Beamline.is_stable_4d`: traces of the horizontal
and vertical diagonal blocks of the one-turn matrix, and the flag
`|trace_x| < 2 and |trace_y| < 2`.  Returned as
`(stable, trace_x, trace_y)`. -/
def is_stable_4d (l : List Elem) : Prop × ℝ × ℝ :=
  let M := one_turn_matrix_4d l
  let trace_x := Matrix.trace (blockX M)
  let trace_y := Matrix.trace (blockY M)
  (|trace_x| < 2 ∧ |trace_y| < 2, trace_x, trace_y)

/-- Backward-compatibility check `Beamline.is_stable`: the source
returns the pair `(stable, trace_x)` where both components come from
`is_stable_4d` — the flag is the 4D (both-plane) one. -/
def is_stable (l : List Elem) : Prop × ℝ :=
  ((is_stable_4d l).1, (is_stable_4d l).2.1)

/-- Linear 4D tracking `Beamline.track_4d`: applies each element's 4x4
matrix in order. -/
def track_4d (l : List Elem) (state : Fin 4 → ℝ) : Fin 4 → ℝ :=
  l.foldl (fun s e => Elem.track_4d e s) state

/-- One-turn 2x2 matrix (horizontal only), `Beamline.one_turn_matrix`. -/
def one_turn_matrix (l : List Elem) : Matrix (Fin 2) (Fin 2) ℝ :=
  l.foldl (fun M e => Elem.matrix_x e * M) 1

/-- Covariance transport `Beamline.track_sigma_to_end`: applies
`sigma ← M·sigma·Mᵀ` with each element's horizontal matrix in order. -/
def track_sigma_to_end (l : List Elem) (sigma0 : Matrix (Fin 2) (Fin 2) ℝ) :
    Matrix (Fin 2) (Fin 2) ℝ :=
  l.foldl (fun sigma e => Elem.matrix_x e * sigma * (Elem.matrix_x e)ᵀ) sigma0

/-- Strength setter `Beamline.set_quadrupole_strengths`: walks the
element list, consuming one value per `Quadrupole` (equivalent to the
source's `quad_index` counter); values beyond the quadrupole count are
ignored, quadrupoles beyond the value count are unchanged.  A thick
quadrupole gets `elem.k = value`; a thin one gets `elem.f_thin = value`
(the source writes the new attribute `f_thin`, not `f`). -/
def set_quadrupole_strengths : List Elem → List ℝ → List Elem
  | [], _ => []
  | e :: rest, vals =>
      match e with
      | .quad k len f ft =>
          match vals with
          | [] => Elem.quad k len f ft :: set_quadrupole_strengths rest []
          | v :: vs =>
              (if 0 < len then Elem.quad v len f ft else Elem.quad k len f (some v)) ::
                set_quadrupole_strengths rest vs
      | _ => e :: set_quadrupole_strengths rest vals

/-- Strength getter `Beamline.get_quadrupole_strengths`: appends
`elem.k` for each thick quadrupole and `elem.f_thin` for each thin one,
in lattice order.  Reading `f_thin` on a quadrupole that never went
through the setter raises `AttributeError` in Python; the embedding
returns `none` there. -/
def get_quadrupole_strengths : List Elem → Option (List ℝ)
  | [] => some []
  | e :: rest =>
      match e with
      | .quad k len _ ft =>
          (if 0 < len then some k else ft).bind fun v =>
            (get_quadrupole_strengths rest).map fun vs => v :: vs
      | _ => get_quadrupole_strengths rest

/-- Nonlinear tracking `Beamline.track_particle_nonlinear`: a
`Sextupole` applies its kick map, every other element its linear 4x4
matrix. -/
def track_particle_nonlinear (l : List Elem) (state : Fin 4 → ℝ) : Fin 4 → ℝ :=
  l.foldl
    (fun s e =>
      match e with
      | .sext k2 len => sextupole_kick k2 len s
      | _ => Elem.track_4d e s)
    state

/-- Amplitude sweep of `Beamline.get_dynamic_aperture`:
`np.linspace(0.001, max_amplitude, n_particles)`, i.e. the arithmetic
progression from `0.001` to `max_amplitude` (the single point `0.001`
when `n = 1`). -/
def aperture_amplitudes (n : ℕ) (maxAmp : ℝ) : Fin n → ℝ :=
  fun i => if n = 1 then 0.001 else 0.001 + (i : ℝ) * (maxAmp - 0.001) / ((n : ℝ) - 1)

/-- Turn loop of `Beamline.get_dynamic_aperture` for one test particle:
starting from `state`, advance one turn through the nonlinear path and
fail (`break` with `stable = False`) the instant `|x| > 0.1` or
`|y| > 0.1`; the particle is stable when the given number of turns
completes without a violation. -/
def aperture_turns (l : List Elem) : ℕ → (Fin 4 → ℝ) → Prop
  | 0, _ => True
  | n + 1, state =>
      let s := track_particle_nonlinear l state
      if 0.1 < |s 0| ∨ 0.1 < |s 2| then False else aperture_turns l n s

/-- Aperture scan `Beamline.get_dynamic_aperture`: for each of the
`n_particles` amplitudes, runs 100 turns of the nonlinear tracker on
the fresh particle `[amp, 0, 0, 0]` and records the stability flag;
returns the parallel amplitude and flag arrays. -/
def get_dynamic_aperture (l : List Elem) (n : ℕ) (maxAmp : ℝ) :
    (Fin n → ℝ) × (Fin n → Prop) :=
  (aperture_amplitudes n maxAmp,
   fun i => aperture_turns l 100 ![aperture_amplitudes n maxAmp i, 0, 0, 0])

end Beamline

/-- Conversion `make_sigma_from_twiss` of `twiss.py`:
`epsilon * [[beta, -alpha], [-alpha, (1 + alpha^2)/beta]]`. -/
def make_sigma_from_twiss (beta alpha epsilon : ℝ) : Matrix (Fin 2) (Fin 2) ℝ :=
  epsilon • !![beta, -alpha; -alpha, (1 + alpha ^ 2) / beta]

/-- Conversion `get_twiss_from_sigma` of `twiss.py`:
`(sigma00/eps, -sigma01/eps, sigma11/eps)`. -/
def get_twiss_from_sigma (sigma : Matrix (Fin 2) (Fin 2) ℝ) (epsilon : ℝ) : ℝ × ℝ × ℝ :=
  (sigma 0 0 / epsilon, -(sigma 0 1) / epsilon, sigma 1 1 / epsilon)

/-- Emittance `get_emittance` of `twiss.py`: `sqrt(det(Sigma))`. -/
def get_emittance (sigma : Matrix (Fin 2) (Fin 2) ℝ) : ℝ :=
  Real.sqrt sigma.det

/-- Result record of `scipy.optimize.minimize` as consumed by
`matching.py` (fields `success`, `message`, `nit`, `fun`, `x`).
`scipy` is an external dependency, not code of this repository, so the
optimizer itself is abstracted: `match_beamline` below is parameterized
over any total function producing such a record. -/
structure ScipyResult where
  success : Bool
  message : String
  nit : ℕ
  fval : ℝ
  x : List ℝ

/-- Returned record of `match_beamline` in `matching.py`. -/
structure MatchResult where
  success : Bool
  message : String
  iterations : ℕ
  final_loss : ℝ
  optimal_strengths : List ℝ

/-- Loss `matching_loss` of `matching.py`: set the candidate strengths,
transport `sigma0` to the end, read off `(beta, alpha)` and return the
squared distance to the target.  (In Python the set mutates the shared
beamline object; since every candidate vector the optimizer evaluates
has the seed's length, each evaluation overwrites the previous one and
the loss is the pure function of the strengths written here.) -/
def matching_loss (l : List Elem) (sigma0 : Matrix (Fin 2) (Fin 2) ℝ)
    (beta_target alpha_target epsilon : ℝ) (strengths : List ℝ) : ℝ :=
  let l2 := Beamline.set_quadrupole_strengths l strengths
  let sigma_out := Beamline.track_sigma_to_end l2 sigma0
  let tw := get_twiss_from_sigma sigma_out epsilon
  (tw.1 - beta_target) ^ 2 + (tw.2.1 - alpha_target) ^ 2

/-- Optimizer driver `match_beamline` of `matching.py`, parameterized
over the external `scipy` minimizer.  When no initial guess is given
the seed is the lattice's current strengths (`none` models the
`AttributeError` Python raises there when a thin quadrupole was never
set).  The returned pair is the result record and the beamline after
the final `set_quadrupole_strengths(result.x)`. -/
def match_beamline (minimizeF : (List ℝ → ℝ) → List ℝ → ScipyResult)
    (l : List Elem) (sigma0 : Matrix (Fin 2) (Fin 2) ℝ)
    (beta_target alpha_target : ℝ) (initial_guess : Option (List ℝ)) (epsilon : ℝ) :
    Option (MatchResult × List Elem) :=
  let x0? := match initial_guess with
    | some g => some g
    | none => Beamline.get_quadrupole_strengths l
  match x0? with
  | none => none
  | some x0 =>
      let r := minimizeF (matching_loss l sigma0 beta_target alpha_target epsilon) x0
      some (⟨r.success, r.message, r.nit, r.fval, r.x⟩,
        Beamline.set_quadrupole_strengths l r.x)

/-- Embedding of the self-contained `day4_stability.py` script, whose
`Element`/`Beamline` classes are independent of `src/`: a drift and an
always-thin quadrupole. -/
inductive D4Elem : Type
  | drift (L : ℝ)
  | quad (f : ℝ) (length : ℝ)

namespace D4Elem

/-- Transfer matrix `matrix` of `day4_stability.py`: a drift is
`[[1,L],[0,1]]`; a quadrupole is the thin lens `[[1,0],[-1/f,1]]`
regardless of its length. -/
def matrix : D4Elem → Matrix (Fin 2) (Fin 2) ℝ
  | .drift L => !![1, L; 0, 1]
  | .quad f _ => !![1, 0; -(1 / f), 1]

/-- One-turn matrix of `day4_stability.py`. -/
def one_turn_matrix (l : List D4Elem) : Matrix (Fin 2) (Fin 2) ℝ :=
  l.foldl (fun M e => matrix e * M) 1

/-- Periodic Twiss computation `Beamline.get_periodic_twiss` of
`day4_stability.py`: raises `ValueError` carrying the offending trace
when `|trace| >= 2` (embedded as `Except.error trace`); otherwise
returns `(beta, alpha, gamma, tune)` built from `mu = arccos(trace/2)`
and `sin(mu)`. -/
def get_periodic_twiss (l : List D4Elem) : Except ℝ (ℝ × ℝ × ℝ × ℝ) :=
  let M := one_turn_matrix l
  let trace := Matrix.trace M
  if 2 ≤ |trace| then .error trace
  else
    let mu := Real.arccos (trace / 2)
    let sin_mu := Real.sin mu
    .ok (M 0 1 / sin_mu, (M 0 0 - M 1 1) / (2 * sin_mu), -(M 1 0) / sin_mu,
      mu / (2 * Real.pi))

end D4Elem

/-- Both plane matrices of a well-formed linear element are unimodular:
`det = 1`.  This is the per-element kernel of the emittance invariant. -/
theorem det_matrix_x_eq_one (e : Elem) (h : e.linwf) : (Elem.matrix_x e).det = 1 := by
  cases e with
  | drift L => simp [Elem.matrix_x, Matrix.det_fin_two_of]
  | quad k len f ft =>
      simp only [Elem.matrix_x]
      by_cases hlen : len = 0
      · obtain ⟨v, hv, hv0⟩ := h hlen
        rw [if_pos hlen, Matrix.det_fin_two_of]
        ring
      · rw [if_neg hlen]
        by_cases hk : |k| < QUAD_EPS
        · rw [if_pos hk, Matrix.det_fin_two_of]; ring
        · rw [if_neg hk]
          have hkne : k ≠ 0 := by
            intro h0
            rw [h0] at hk
            exact hk (by norm_num [QUAD_EPS])
          by_cases hkpos : 0 < k
          · rw [if_pos hkpos, Matrix.det_fin_two_of]
            have hs : Real.sqrt k ≠ 0 := ne_of_gt (Real.sqrt_pos.mpr hkpos)
            field_simp
            linear_combination Real.sqrt k * Real.sin_sq_add_cos_sq (Real.sqrt k * len)
          · rw [if_neg hkpos, Matrix.det_fin_two_of]
            have hkneg : 0 < -k := by
              rcases lt_trichotomy k 0 with hlt | heq | hgt
              · linarith
              · exact absurd heq hkne
              · exact absurd hgt hkpos
            have hs : Real.sqrt (-k) ≠ 0 := ne_of_gt (Real.sqrt_pos.mpr hkneg)
            field_simp
            linear_combination Real.sqrt (-k) * Real.cosh_sq_sub_sinh_sq (Real.sqrt (-k) * len)
  | dipole rho angle len =>
      have hrho : rho ≠ 0 := h
      simp only [Elem.matrix_x]
      rw [Matrix.det_fin_two_of]
      field_simp
      linear_combination rho * Real.sin_sq_add_cos_sq angle
  | sext k2 len => exact absurd h (by simp [Elem.linwf])

/-- Covariance transport preserves the determinant: every step
conjugates by a unimodular matrix. -/
theorem det_track_sigma_to_end (l : List Elem) (sigma0 : Matrix (Fin 2) (Fin 2) ℝ)
    (h : ∀ e ∈ l, e.linwf) :
    (Beamline.track_sigma_to_end l sigma0).det = sigma0.det := by
  induction l generalizing sigma0 with
  | nil => rfl
  | cons e rest ih =>
      have he : e.linwf := h e (List.mem_cons_self e rest)
      have hrest : ∀ e2 ∈ rest, e2.linwf := fun e2 h2 => h e2 (List.mem_cons_of_mem e h2)
      have step :
          Beamline.track_sigma_to_end (e :: rest) sigma0 =
            Beamline.track_sigma_to_end rest
              (Elem.matrix_x e * sigma0 * (Elem.matrix_x e)ᵀ) := rfl
      rw [step, ih _ hrest, Matrix.det_mul, Matrix.det_mul, Matrix.det_transpose,
        det_matrix_x_eq_one e he]
      ring

/-- Sample beamline used by the C1 witness. -/
def c1line : List Elem := [Elem.drift 1, Elem.Quadrupole.of_f 5 0]

/-- Sample entrance covariance matrix used by the C1 witness. -/
def c1sigma : Matrix (Fin 2) (Fin 2) ℝ := !![2, 0; 0, 3]

/-- C1.  Emittance invariance: transporting any entrance covariance
matrix through any well-formed lattice of `Drift` / `Quadrupole` /
`Dipole` elements preserves `det(Sigma)` (exactly, in real arithmetic —
a fortiori within the spec's 1e-10 relative tolerance), hence the
emittance `sqrt(det(Sigma))` is conserved. -/
theorem C1_emittance_invariance (l : List Elem) (sigma0 : Matrix (Fin 2) (Fin 2) ℝ)
    (h : ∀ e ∈ l, e.linwf) :
    (Beamline.track_sigma_to_end l sigma0).det = sigma0.det ∧
    get_emittance (Beamline.track_sigma_to_end l sigma0) = get_emittance sigma0 := by
  refine ⟨det_track_sigma_to_end l sigma0 h, ?_⟩
  rw [get_emittance, get_emittance, det_track_sigma_to_end l sigma0 h]

/-- Witness for C1 on a concrete drift-plus-thin-quadrupole lattice. -/
theorem C1_emittance_invariance_witness :
    (∀ e ∈ c1line, e.linwf) ∧
    (Beamline.track_sigma_to_end c1line c1sigma).det = c1sigma.det ∧
    get_emittance (Beamline.track_sigma_to_end c1line c1sigma) = get_emittance c1sigma := by
  have h : ∀ e ∈ c1line, e.linwf := by
    intro e he
    simp only [c1line, List.mem_cons, List.not_mem_nil, or_false] at he
    rcases he with h1 | h2
    · subst h1; trivial
    · subst h2
      simp only [Elem.Quadrupole.of_f, if_neg (lt_irrefl (0 : ℝ)), Elem.linwf]
      exact fun _ => ⟨5, rfl, by norm_num⟩
  exact ⟨h, (C1_emittance_invariance c1line c1sigma h).1,
    (C1_emittance_invariance c1line c1sigma h).2⟩

/-- Sample stable `day4_stability.py` lattice for the C2 witness:
a thin quadrupole `f = 1` followed by a drift of length 1; its one-turn
matrix is `[[0,1],[-1,1]]` with trace 1. -/
def c2line : List D4Elem := [D4Elem.quad 1 0, D4Elem.drift 1]

/-- C2.  `get_periodic_twiss` of `day4_stability.py`: on a stable
lattice (`|trace| < 2`) it returns `beta = M01/sin(mu)`,
`alpha = (M00 - M11)/(2 sin(mu))`, `gamma = -M10/sin(mu)` and
`tune = mu/(2*pi)` with `mu = arccos(trace/2)` lying on the principal
branch `0 ≤ mu ≤ pi`; on an unstable lattice (`|trace| ≥ 2`) it fails
with a domain error reporting the offending trace. -/
theorem C2_periodic_twiss (l : List D4Elem) :
    (|Matrix.trace (D4Elem.one_turn_matrix l)| < 2 →
      D4Elem.get_periodic_twiss l =
        .ok (D4Elem.one_turn_matrix l 0 1 /
               Real.sin (Real.arccos (Matrix.trace (D4Elem.one_turn_matrix l) / 2)),
             (D4Elem.one_turn_matrix l 0 0 - D4Elem.one_turn_matrix l 1 1) /
               (2 * Real.sin (Real.arccos (Matrix.trace (D4Elem.one_turn_matrix l) / 2))),
             -(D4Elem.one_turn_matrix l 1 0) /
               Real.sin (Real.arccos (Matrix.trace (D4Elem.one_turn_matrix l) / 2)),
             Real.arccos (Matrix.trace (D4Elem.one_turn_matrix l) / 2) / (2 * Real.pi)) ∧
      0 ≤ Real.arccos (Matrix.trace (D4Elem.one_turn_matrix l) / 2) ∧
      Real.arccos (Matrix.trace (D4Elem.one_turn_matrix l) / 2) ≤ Real.pi) ∧
    (2 ≤ |Matrix.trace (D4Elem.one_turn_matrix l)| →
      D4Elem.get_periodic_twiss l = .error (Matrix.trace (D4Elem.one_turn_matrix l))) := by
  constructor
  · intro hstable
    refine ⟨?_, Real.arccos_nonneg _, Real.arccos_le_pi _⟩
    rw [D4Elem.get_periodic_twiss]
    rw [if_neg (not_le.mpr hstable)]
  · intro hunstable
    rw [D4Elem.get_periodic_twiss]
    rw [if_pos hunstable]

/-- Witness for C2 on the concrete stable lattice `c2line`. -/
theorem C2_periodic_twiss_witness :
    |Matrix.trace (D4Elem.one_turn_matrix c2line)| < 2 ∧
    D4Elem.get_periodic_twiss c2line =
      .ok (D4Elem.one_turn_matrix c2line 0 1 /
             Real.sin (Real.arccos (Matrix.trace (D4Elem.one_turn_matrix c2line) / 2)),
           (D4Elem.one_turn_matrix c2line 0 0 - D4Elem.one_turn_matrix c2line 1 1) /
             (2 * Real.sin (Real.arccos (Matrix.trace (D4Elem.one_turn_matrix c2line) / 2))),
           -(D4Elem.one_turn_matrix c2line 1 0) /
             Real.sin (Real.arccos (Matrix.trace (D4Elem.one_turn_matrix c2line) / 2)),
           Real.arccos (Matrix.trace (D4Elem.one_turn_matrix c2line) / 2) / (2 * Real.pi)) := by
  have htr : Matrix.trace (D4Elem.one_turn_matrix c2line) = 1 := by
    show Matrix.trace
        (D4Elem.matrix (D4Elem.drift 1) * (D4Elem.matrix (D4Elem.quad 1 0) * 1)) = 1
    rw [mul_one]
    simp only [D4Elem.matrix]
    rw [show (!![1, (1:ℝ); 0, 1] * !![1, 0; -(1/1), 1]) =
        !![1 * 1 + 1 * -(1/1), 1 * 0 + 1 * 1; 0 * 1 + 1 * -(1/1), 0 * 0 + 1 * 1] from
      Matrix.mul_fin_two 1 1 0 1 1 0 (-(1/1)) 1]
    rw [Matrix.trace_fin_two]
    norm_num
  have hlt : |Matrix.trace (D4Elem.one_turn_matrix c2line)| < 2 := by
    rw [htr]; norm_num
  exact ⟨hlt, ((C2_periodic_twiss c2line).1 hlt).1⟩

/-- Counterexample lattice for C3: a single thick quadrupole
`Quadrupole(k=1, length=1)`, focusing horizontally (trace `2*cos 1`,
inside the stable band) and defocusing vertically (trace `2*cosh 1`,
outside it). -/
def c3lat : List Elem := [Elem.Quadrupole.of_k 1 1]

/-- Helper: the one-turn matrix of `c3lat` has horizontal-block trace
`cos 1 + cos 1` and vertical-block trace `cosh 1 + cosh 1`. -/
theorem c3lat_traces :
    Matrix.trace (Beamline.blockX (Beamline.one_turn_matrix_4d c3lat)) =
      Real.cos 1 + Real.cos 1 ∧
    Matrix.trace (Beamline.blockY (Beamline.one_turn_matrix_4d c3lat)) =
      Real.cosh 1 + Real.cosh 1 := by
  have h4 : Beamline.one_turn_matrix_4d c3lat =
      Elem.matrix_4d (Elem.Quadrupole.of_k 1 1) := by
    show Elem.matrix_4d (Elem.Quadrupole.of_k 1 1) * 1 = _
    rw [mul_one]
  have hq : Elem.Quadrupole.of_k 1 1 = Elem.quad 1 1 none none := by
    rw [Elem.Quadrupole.of_k]
    norm_num [QUAD_EPS]
  have hmx : Elem.matrix_x (Elem.quad 1 1 none none) =
      !![Real.cos 1, Real.sin 1; -(Real.sin 1), Real.cos 1] := by
    rw [Elem.matrix_x]
    norm_num [QUAD_EPS, Real.sqrt_one]
  have hmy : Elem.matrix_y (Elem.quad 1 1 none none) =
      !![Real.cosh 1, Real.sinh 1; Real.sinh 1, Real.cosh 1] := by
    rw [Elem.matrix_y]
    norm_num [QUAD_EPS, Real.sqrt_one]
  rw [h4, hq]
  constructor
  · rw [Matrix.trace_fin_two]
    simp [Beamline.blockX, Elem.matrix_4d, hmx]
  · rw [Matrix.trace_fin_two]
    simp [Beamline.blockY, Elem.matrix_4d, hmy]

/-- Counterexample for C3: on the single-thick-quadrupole lattice the
horizontal trace satisfies the per-plane criterion `|trace_x| < 2`, yet
`is_stable` reports `False` — its flag is the both-plane 4D verdict,
not the horizontal-only criterion the claim states. -/
theorem C3_counterexample :
    |(Beamline.is_stable c3lat).2| < 2 ∧ ¬(Beamline.is_stable c3lat).1 := by
  obtain ⟨htx, hty⟩ := c3lat_traces
  have hc1pos : 0 < Real.cos 1 := by
    apply Real.cos_pos_of_mem_Ioo
    constructor
    · have := Real.pi_gt_three
      linarith
    · have := Real.pi_gt_three
      linarith
  have hc1lt : Real.cos 1 < 1 := by
    have h := Real.cos_lt_cos_of_nonneg_of_le_pi (le_refl (0 : ℝ))
      (by linarith [Real.pi_gt_three]) (by norm_num : (0 : ℝ) < 1)
    rwa [Real.cos_zero] at h
  have hch : 1 ≤ Real.cosh 1 := Real.one_le_cosh 1
  constructor
  · show |Matrix.trace (Beamline.blockX (Beamline.one_turn_matrix_4d c3lat))| < 2
    rw [htx, abs_of_pos (by linarith)]
    linarith
  · show ¬(|Matrix.trace (Beamline.blockX (Beamline.one_turn_matrix_4d c3lat))| < 2 ∧
        |Matrix.trace (Beamline.blockY (Beamline.one_turn_matrix_4d c3lat))| < 2)
    rintro ⟨-, hy⟩
    rw [hty, abs_of_pos (by linarith)] at hy
    linarith

/-- C3 (amended).  `is_stable_4d` returns the flag
`|trace_x| < 2 and |trace_y| < 2` over the diagonal 2x2 blocks of the
4D one-turn matrix together with both traces, classifying the boundary
`|trace| = 2` as unstable; `is_stable` returns that same both-plane 4D
flag (not a horizontal-only criterion) together with the horizontal
trace. -/
theorem C3_stability_flags (l : List Elem) :
    Beamline.is_stable_4d l =
      (|Matrix.trace (Beamline.blockX (Beamline.one_turn_matrix_4d l))| < 2 ∧
         |Matrix.trace (Beamline.blockY (Beamline.one_turn_matrix_4d l))| < 2,
       Matrix.trace (Beamline.blockX (Beamline.one_turn_matrix_4d l)),
       Matrix.trace (Beamline.blockY (Beamline.one_turn_matrix_4d l))) ∧
    (|Matrix.trace (Beamline.blockX (Beamline.one_turn_matrix_4d l))| = 2 →
      ¬(Beamline.is_stable_4d l).1) ∧
    (|Matrix.trace (Beamline.blockY (Beamline.one_turn_matrix_4d l))| = 2 →
      ¬(Beamline.is_stable_4d l).1) ∧
    Beamline.is_stable l = ((Beamline.is_stable_4d l).1,
      Matrix.trace (Beamline.blockX (Beamline.one_turn_matrix_4d l))) := by
  refine ⟨rfl, ?_, ?_, rfl⟩
  · intro hx
    rintro ⟨h1, -⟩
    rw [hx] at h1
    exact absurd h1 (lt_irrefl 2)
  · intro hy
    rintro ⟨-, h2⟩
    rw [hy] at h2
    exact absurd h2 (lt_irrefl 2)

/-- Witness for C3 on the boundary lattice `[Drift(0)]`, whose one-turn
matrix is the identity with per-plane traces exactly 2: it is
classified unstable. -/
theorem C3_stability_flags_witness :
    |Matrix.trace (Beamline.blockX (Beamline.one_turn_matrix_4d [Elem.drift 0]))| = 2 ∧
    ¬(Beamline.is_stable_4d [Elem.drift 0]).1 ∧
    Beamline.is_stable [Elem.drift 0] = ((Beamline.is_stable_4d [Elem.drift 0]).1,
      Matrix.trace (Beamline.blockX (Beamline.one_turn_matrix_4d [Elem.drift 0]))) := by
  have h4 : Beamline.one_turn_matrix_4d [Elem.drift 0] = Elem.matrix_4d (Elem.drift 0) := by
    show Elem.matrix_4d (Elem.drift 0) * 1 = _
    rw [mul_one]
  have htx : Matrix.trace (Beamline.blockX (Beamline.one_turn_matrix_4d [Elem.drift 0])) = 2 := by
    rw [h4, Matrix.trace_fin_two]
    simp [Beamline.blockX, Elem.matrix_4d, Elem.matrix_x]
    norm_num
  have habs : |Matrix.trace (Beamline.blockX (Beamline.one_turn_matrix_4d [Elem.drift 0]))| = 2 := by
    rw [htx]
    norm_num
  have h := C3_stability_flags [Elem.drift 0]
  exact ⟨habs, h.2.1 habs, h.2.2.2⟩

/-- Determinant of the vertical plane matrix of a well-formed linear
element is also 1. -/
theorem det_matrix_y_eq_one (e : Elem) (h : e.linwf) : (Elem.matrix_y e).det = 1 := by
  cases e with
  | drift L => simp [Elem.matrix_y, Matrix.det_fin_two_of]
  | quad k len f ft =>
      simp only [Elem.matrix_y]
      by_cases hlen : len = 0
      · obtain ⟨v, hv, hv0⟩ := h hlen
        rw [if_pos hlen, Matrix.det_fin_two_of]
        ring
      · rw [if_neg hlen]
        by_cases hk : |k| < QUAD_EPS
        · rw [if_pos hk, Matrix.det_fin_two_of]; ring
        · rw [if_neg hk]
          have hkne : k ≠ 0 := by
            intro h0
            rw [h0] at hk
            exact hk (by norm_num [QUAD_EPS])
          by_cases hkpos : 0 < k
          · rw [if_pos hkpos, Matrix.det_fin_two_of]
            have hs : Real.sqrt k ≠ 0 := ne_of_gt (Real.sqrt_pos.mpr hkpos)
            field_simp
            linear_combination Real.sqrt k * Real.cosh_sq_sub_sinh_sq (Real.sqrt k * len)
          · rw [if_neg hkpos, Matrix.det_fin_two_of]
            have hkneg : 0 < -k := by
              rcases lt_trichotomy k 0 with hlt | heq | hgt
              · linarith
              · exact absurd heq hkne
              · exact absurd hgt hkpos
            have hs : Real.sqrt (-k) ≠ 0 := ne_of_gt (Real.sqrt_pos.mpr hkneg)
            field_simp
            linear_combination Real.sqrt (-k) * Real.sin_sq_add_cos_sq (Real.sqrt (-k) * len)
  | dipole rho angle len =>
      simp [Elem.matrix_y, Matrix.det_fin_two_of]
  | sext k2 len => exact absurd h (by simp [Elem.linwf])

/-- C4.  Quadrupole transfer-matrix contract: the thin lens is
`[[1,0],[-1/f,1]]` horizontally and `[[1,0],[+1/f,1]]` vertically; a
thick lens with non-negligible `k > 0` is trigonometric horizontally
and hyperbolic vertically at the argument `sqrt(k)*L`, the roles
swapping (with `sqrt(-k)`) for `k < 0`; a thick lens with
`|k| < 1e-10` degenerates to the drift matrix in both planes; and in
every case both plane matrices have determinant 1. -/
theorem C4_quadrupole_matrices (k L f : ℝ) (fo ft : Option ℝ) (hL : 0 < L) :
    (f ≠ 0 →
      Elem.matrix_x (Elem.quad k 0 (some f) ft) = !![1, 0; -(1 / f), 1] ∧
      Elem.matrix_y (Elem.quad k 0 (some f) ft) = !![1, 0; 1 / f, 1] ∧
      (Elem.matrix_x (Elem.quad k 0 (some f) ft)).det = 1 ∧
      (Elem.matrix_y (Elem.quad k 0 (some f) ft)).det = 1) ∧
    (QUAD_EPS ≤ |k| → 0 < k →
      Elem.matrix_x (Elem.quad k L fo ft) =
        !![Real.cos (Real.sqrt k * L), Real.sin (Real.sqrt k * L) / Real.sqrt k;
           -(Real.sqrt k * Real.sin (Real.sqrt k * L)), Real.cos (Real.sqrt k * L)] ∧
      Elem.matrix_y (Elem.quad k L fo ft) =
        !![Real.cosh (Real.sqrt k * L), Real.sinh (Real.sqrt k * L) / Real.sqrt k;
           Real.sqrt k * Real.sinh (Real.sqrt k * L), Real.cosh (Real.sqrt k * L)] ∧
      (Elem.matrix_x (Elem.quad k L fo ft)).det = 1 ∧
      (Elem.matrix_y (Elem.quad k L fo ft)).det = 1) ∧
    (QUAD_EPS ≤ |k| → k < 0 →
      Elem.matrix_x (Elem.quad k L fo ft) =
        !![Real.cosh (Real.sqrt (-k) * L), Real.sinh (Real.sqrt (-k) * L) / Real.sqrt (-k);
           Real.sqrt (-k) * Real.sinh (Real.sqrt (-k) * L), Real.cosh (Real.sqrt (-k) * L)] ∧
      Elem.matrix_y (Elem.quad k L fo ft) =
        !![Real.cos (Real.sqrt (-k) * L), Real.sin (Real.sqrt (-k) * L) / Real.sqrt (-k);
           -(Real.sqrt (-k) * Real.sin (Real.sqrt (-k) * L)), Real.cos (Real.sqrt (-k) * L)] ∧
      (Elem.matrix_x (Elem.quad k L fo ft)).det = 1 ∧
      (Elem.matrix_y (Elem.quad k L fo ft)).det = 1) ∧
    (|k| < QUAD_EPS →
      Elem.matrix_x (Elem.quad k L fo ft) = !![1, L; 0, 1] ∧
      Elem.matrix_y (Elem.quad k L fo ft) = !![1, L; 0, 1] ∧
      (Elem.matrix_x (Elem.quad k L fo ft)).det = 1 ∧
      (Elem.matrix_y (Elem.quad k L fo ft)).det = 1) := by
  have hLne : L ≠ 0 := ne_of_gt hL
  have hthickwf : Elem.linwf (Elem.quad k L fo ft) := fun h0 => absurd h0 hLne
  refine ⟨?_, ?_, ?_, ?_⟩
  · intro hf
    have hwf : Elem.linwf (Elem.quad k 0 (some f) ft) := fun _ => ⟨f, rfl, hf⟩
    refine ⟨?_, ?_, det_matrix_x_eq_one _ hwf, det_matrix_y_eq_one _ hwf⟩
    · rw [Elem.matrix_x, if_pos rfl]
      simp
    · rw [Elem.matrix_y, if_pos rfl]
      simp
  · intro hk hkpos
    have hnk : ¬|k| < QUAD_EPS := not_lt.mpr hk
    refine ⟨?_, ?_, det_matrix_x_eq_one _ hthickwf, det_matrix_y_eq_one _ hthickwf⟩
    · rw [Elem.matrix_x, if_neg hLne, if_neg hnk, if_pos hkpos]
    · rw [Elem.matrix_y, if_neg hLne, if_neg hnk, if_pos hkpos]
  · intro hk hkneg
    have hnk : ¬|k| < QUAD_EPS := not_lt.mpr hk
    have hnpos : ¬0 < k := not_lt.mpr (le_of_lt hkneg)
    refine ⟨?_, ?_, det_matrix_x_eq_one _ hthickwf, det_matrix_y_eq_one _ hthickwf⟩
    · rw [Elem.matrix_x, if_neg hLne, if_neg hnk, if_neg hnpos]
    · rw [Elem.matrix_y, if_neg hLne, if_neg hnk, if_neg hnpos]
  · intro hk
    refine ⟨?_, ?_, det_matrix_x_eq_one _ hthickwf, det_matrix_y_eq_one _ hthickwf⟩
    · rw [Elem.matrix_x, if_neg hLne, if_pos hk]
    · rw [Elem.matrix_y, if_neg hLne, if_pos hk]

/-- Witness for C4 at `k = 1`, `L = 1`, `f = 2`: the thin-lens and the
focusing thick-lens branches at a concrete input. -/
theorem C4_quadrupole_matrices_witness :
    (0 : ℝ) < 1 ∧ (2 : ℝ) ≠ 0 ∧ QUAD_EPS ≤ |(1 : ℝ)| ∧
    Elem.matrix_x (Elem.quad 1 0 (some 2) none) = !![1, 0; -(1 / 2), 1] ∧
    Elem.matrix_y (Elem.quad 1 0 (some 2) none) = !![1, 0; 1 / 2, 1] ∧
    (Elem.matrix_x (Elem.quad 1 0 (some 2) none)).det = 1 ∧
    Elem.matrix_x (Elem.quad 1 1 none none) =
      !![Real.cos (Real.sqrt 1 * 1), Real.sin (Real.sqrt 1 * 1) / Real.sqrt 1;
         -(Real.sqrt 1 * Real.sin (Real.sqrt 1 * 1)), Real.cos (Real.sqrt 1 * 1)] ∧
    (Elem.matrix_y (Elem.quad 1 1 none none)).det = 1 := by
  have h := C4_quadrupole_matrices 1 1 2 none none (by norm_num)
  have hf : (2 : ℝ) ≠ 0 := by norm_num
  have hk : QUAD_EPS ≤ |(1 : ℝ)| := by norm_num [QUAD_EPS]
  have hkpos : (0 : ℝ) < 1 := by norm_num
  exact ⟨by norm_num, hf, hk, (h.1 hf).1, (h.1 hf).2.1, (h.1 hf).2.2.1,
    (h.2.1 hk hkpos).1, (h.2.1 hk hkpos).2.2.2⟩

/-- C5.  Twiss round-trip law: reading Twiss parameters back from a
covariance matrix built from `(beta, alpha, epsilon)` returns exactly
`(beta, alpha, (1 + alpha^2)/beta)` whenever `beta > 0` and
`epsilon > 0`. -/
theorem C5_twiss_round_trip (beta alpha epsilon : ℝ) (hb : 0 < beta) (he : 0 < epsilon) :
    get_twiss_from_sigma (make_sigma_from_twiss beta alpha epsilon) epsilon =
      (beta, alpha, (1 + alpha ^ 2) / beta) := by
  have he0 : epsilon ≠ 0 := ne_of_gt he
  simp only [get_twiss_from_sigma, make_sigma_from_twiss, Matrix.smul_apply,
    Matrix.cons_val_zero, Matrix.cons_val_one, Matrix.head_cons, Matrix.head_fin_const,
    Matrix.cons_val_fin_one, smul_eq_mul]
  refine Prod.ext ?_ (Prod.ext ?_ ?_)
  · show epsilon * beta / epsilon = beta
    field_simp
  · show -(epsilon * -alpha) / epsilon = alpha
    field_simp
  · show epsilon * ((1 + alpha ^ 2) / beta) / epsilon = (1 + alpha ^ 2) / beta
    field_simp
    ring

/-- Witness for C5 at `beta = 2`, `alpha = 1`, `epsilon = 1`. -/
theorem C5_twiss_round_trip_witness :
    (0 : ℝ) < 2 ∧ (0 : ℝ) < 1 ∧
    get_twiss_from_sigma (make_sigma_from_twiss 2 1 1) 1 = (2, 1, 1) := by
  refine ⟨by norm_num, by norm_num, ?_⟩
  have h := C5_twiss_round_trip 2 1 1 (by norm_num) (by norm_num)
  rw [h]
  norm_num

/-- A freshly constructed thin quadrupole `Quadrupole(f=5.0)`:
failing input for the thin-branch of the strength addressing claim. -/
def c6quad : Elem := Elem.Quadrupole.of_f 5 0

/-- C6 (code evaluated at the failing input).  Setting a strength on a
thin quadrupole stores the value in the fresh `f_thin` attribute while
leaving the focal length `f` — and hence the transfer matrix — at its
old value, and `get_quadrupole_strengths` on a never-set thin
quadrupole reads the non-existent `f_thin` (an `AttributeError`,
embedded as `none`): the code does not address thin quadrupoles via
their focal length `f` as the claim states. -/
theorem C6_thin_quad_strength_bug :
    c6quad = Elem.quad 0 0 (some 5) none ∧
    Beamline.set_quadrupole_strengths [c6quad] [2] = [Elem.quad 0 0 (some 5) (some 2)] ∧
    Elem.matrix_x (Elem.quad 0 0 (some 5) (some 2)) = Elem.matrix_x c6quad ∧
    Elem.matrix_x (Elem.quad 0 0 (some 5) (some 2)) = !![1, 0; -(1 / 5), 1] ∧
    Beamline.get_quadrupole_strengths [c6quad] = none := by
  have hq : c6quad = Elem.quad 0 0 (some 5) none := by
    rw [c6quad, Elem.Quadrupole.of_f, if_neg (lt_irrefl (0 : ℝ))]
  have hmx : Elem.matrix_x (Elem.quad 0 0 (some 5) (some 2)) = !![1, 0; -(1 / 5), 1] := by
    rw [Elem.matrix_x, if_pos rfl]
    simp
  refine ⟨hq, ?_, ?_, hmx, ?_⟩
  · rw [hq]
    show (if (0 : ℝ) < 0 then Elem.quad 2 0 (some 5) none
        else Elem.quad 0 0 (some 5) (some 2)) ::
        Beamline.set_quadrupole_strengths [] [] = _
    rw [if_neg (lt_irrefl (0 : ℝ))]
    rfl
  · rw [hq, hmx, Elem.matrix_x, if_pos rfl]
    simp
  · rw [hq]
    show (if (0 : ℝ) < 0 then some (0 : ℝ) else none).bind
        (fun v => (Beamline.get_quadrupole_strengths []).map fun vs => v :: vs) = none
    rw [if_neg (lt_irrefl (0 : ℝ))]
    rfl

/-- Whether an element is the (spec-modelled) `Sextupole`. -/
def Elem.isSext : Elem → Prop
  | .sext _ _ => True
  | _ => False

/-- The all-zero 4D state is written `![0,0,0,0]` but equals the zero
function. -/
theorem zero_state_eq : (![0, 0, 0, 0] : Fin 4 → ℝ) = 0 := by
  funext i
  fin_cases i <;> rfl

/-- The nonlinear tracker fixes the on-axis state: every linear element
maps the zero vector to itself and the sextupole kick vanishes at
`x = y = 0`. -/
theorem track_nonlinear_zero (l : List Elem) :
    Beamline.track_particle_nonlinear l ![0, 0, 0, 0] = ![0, 0, 0, 0] := by
  induction l with
  | nil => rfl
  | cons e rest ih =>
      cases e with
      | sext k2 len =>
          have hstep : sextupole_kick k2 len ![0, 0, 0, 0] = ![0, 0, 0, 0] := by
            funext i
            fin_cases i <;> simp [sextupole_kick]
          show Beamline.track_particle_nonlinear rest
            (sextupole_kick k2 len ![0, 0, 0, 0]) = ![0, 0, 0, 0]
          rw [hstep]
          exact ih
      | drift L =>
          have hstep : Elem.track_4d (Elem.drift L) ![0, 0, 0, 0] = ![0, 0, 0, 0] := by
            rw [zero_state_eq]
            show Matrix.mulVec _ 0 = 0
            exact Matrix.mulVec_zero _
          show Beamline.track_particle_nonlinear rest
            (Elem.track_4d (Elem.drift L) ![0, 0, 0, 0]) = ![0, 0, 0, 0]
          rw [hstep]
          exact ih
      | quad k len f ft =>
          have hstep : Elem.track_4d (Elem.quad k len f ft) ![0, 0, 0, 0] = ![0, 0, 0, 0] := by
            rw [zero_state_eq]
            show Matrix.mulVec _ 0 = 0
            exact Matrix.mulVec_zero _
          show Beamline.track_particle_nonlinear rest
            (Elem.track_4d (Elem.quad k len f ft) ![0, 0, 0, 0]) = ![0, 0, 0, 0]
          rw [hstep]
          exact ih
      | dipole rho angle len =>
          have hstep : Elem.track_4d (Elem.dipole rho angle len) ![0, 0, 0, 0] =
              ![0, 0, 0, 0] := by
            rw [zero_state_eq]
            show Matrix.mulVec _ 0 = 0
            exact Matrix.mulVec_zero _
          show Beamline.track_particle_nonlinear rest
            (Elem.track_4d (Elem.dipole rho angle len) ![0, 0, 0, 0]) = ![0, 0, 0, 0]
          rw [hstep]
          exact ih

/-- C7.  Sextupole kick and on-axis neutrality: the kick map leaves
`x` and `y` unchanged, adds `-1/2*k2*L*(x^2 - y^2)` to `x'` and
`+k2*L*x*y` to `y'`; consequently tracking the on-axis state
`[0,0,0,0]` through any well-formed lattice containing a `Sextupole`
returns `[0,0,0,0]` exactly. -/
theorem C7_sextupole_neutrality (k2 L : ℝ) (s : Fin 4 → ℝ) (l : List Elem)
    (_hsext : ∃ e ∈ l, e.isSext) (_hwf : ∀ e ∈ l, e.nlwf) :
    sextupole_kick k2 L s 0 = s 0 ∧
    sextupole_kick k2 L s 2 = s 2 ∧
    sextupole_kick k2 L s 1 = s 1 - (1 / 2) * k2 * L * ((s 0) ^ 2 - (s 2) ^ 2) ∧
    sextupole_kick k2 L s 3 = s 3 + k2 * L * (s 0) * (s 2) ∧
    Beamline.track_particle_nonlinear l ![0, 0, 0, 0] = ![0, 0, 0, 0] := by
  refine ⟨rfl, ?_, ?_, ?_, track_nonlinear_zero l⟩
  · show (![s 0, s 1 - (1 / 2) * k2 * L * ((s 0) ^ 2 - (s 2) ^ 2), s 2,
        s 3 + k2 * L * (s 0) * (s 2)] : Fin 4 → ℝ) 2 = s 2
    simp
  · rfl
  · show (![s 0, s 1 - (1 / 2) * k2 * L * ((s 0) ^ 2 - (s 2) ^ 2), s 2,
        s 3 + k2 * L * (s 0) * (s 2)] : Fin 4 → ℝ) 3 = s 3 + k2 * L * (s 0) * (s 2)
    simp

/-- Witness for C7 on the one-sextupole lattice `[Sextupole(5, 0.1)]`. -/
theorem C7_sextupole_neutrality_witness :
    (∃ e ∈ ([Elem.sext 5 (1 / 10)] : List Elem), e.isSext) ∧
    (∀ e ∈ ([Elem.sext 5 (1 / 10)] : List Elem), e.nlwf) ∧
    sextupole_kick 5 (1 / 10) ![0, 0, 0, 0] 0 = (![0, 0, 0, 0] : Fin 4 → ℝ) 0 ∧
    Beamline.track_particle_nonlinear [Elem.sext 5 (1 / 10)] ![0, 0, 0, 0] =
      ![0, 0, 0, 0] := by
  have hsext : ∃ e ∈ ([Elem.sext 5 (1 / 10)] : List Elem), e.isSext :=
    ⟨Elem.sext 5 (1 / 10), by simp, trivial⟩
  have hwf : ∀ e ∈ ([Elem.sext 5 (1 / 10)] : List Elem), e.nlwf := by
    intro e he
    simp only [List.mem_cons, List.not_mem_nil, or_false] at he
    subst he
    trivial
  have h := C7_sextupole_neutrality 5 (1 / 10) ![0, 0, 0, 0] [Elem.sext 5 (1 / 10)] hsext hwf
  exact ⟨hsext, hwf, h.1, h.2.2.2.2⟩

/-- Stand-in for the external `scipy` minimizer used by the C9 witness:
reports non-convergence after the iteration cap, echoing the seed. -/
def c9min : (List ℝ → ℝ) → List ℝ → ScipyResult :=
  fun _ x0 => ⟨false, "Maximum number of iterations has been exceeded.", 1000, 1, x0⟩

/-- One-thick-quadrupole lattice for the C9 witness. -/
def c9lat : List Elem := [Elem.Quadrupole.of_k 1 1]

/-- C9.  Matching-optimizer contract: with no initial guess the search
is seeded at the lattice's current quadrupole strengths; for any
behaviour of the (external, abstracted) minimizer — convergence or not
— `match_beamline` returns a record carrying the success flag, message,
iteration count, final loss and optimal strengths, raising no
exception, and the returned lattice is the input lattice with its
quadrupole strengths overwritten by those optimal strengths. -/
theorem C9_matching_contract (minimizeF : (List ℝ → ℝ) → List ℝ → ScipyResult)
    (l : List Elem) (sigma0 : Matrix (Fin 2) (Fin 2) ℝ) (betaT alphaT epsilon : ℝ)
    (x0 : List ℝ) (h : Beamline.get_quadrupole_strengths l = some x0) :
    match_beamline minimizeF l sigma0 betaT alphaT none epsilon =
      some
        (⟨(minimizeF (matching_loss l sigma0 betaT alphaT epsilon) x0).success,
          (minimizeF (matching_loss l sigma0 betaT alphaT epsilon) x0).message,
          (minimizeF (matching_loss l sigma0 betaT alphaT epsilon) x0).nit,
          (minimizeF (matching_loss l sigma0 betaT alphaT epsilon) x0).fval,
          (minimizeF (matching_loss l sigma0 betaT alphaT epsilon) x0).x⟩,
         Beamline.set_quadrupole_strengths l
           (minimizeF (matching_loss l sigma0 betaT alphaT epsilon) x0).x) := by
  unfold match_beamline
  rw [h]

/-- Witness for C9: a thick-quadrupole lattice and a minimizer stub
that reports hitting the iteration cap (non-convergence) — the record
is still returned, no exception path exists. -/
theorem C9_matching_contract_witness :
    Beamline.get_quadrupole_strengths c9lat = some [1] ∧
    match_beamline c9min c9lat 1 5 0 none (1e-6) =
      some
        (⟨false, "Maximum number of iterations has been exceeded.", 1000, 1, [1]⟩,
         Beamline.set_quadrupole_strengths c9lat [1]) := by
  have hq : c9lat = [Elem.quad 1 1 none none] := by
    rw [c9lat, Elem.Quadrupole.of_k]
    norm_num [QUAD_EPS]
  have h : Beamline.get_quadrupole_strengths c9lat = some [1] := by
    rw [hq]
    show (if (0 : ℝ) < 1 then some (1 : ℝ) else none).bind
        (fun v => (Beamline.get_quadrupole_strengths []).map fun vs => v :: vs) = some [1]
    rw [if_pos (by norm_num : (0 : ℝ) < 1)]
    rfl
  exact ⟨h, C9_matching_contract c9min c9lat 1 5 0 (1e-6) [1] h⟩

/-- Component formulas of one linear 4D tracking step: thanks to the
block-diagonal assembly, the horizontal output components read only the
horizontal inputs and vice versa. -/
theorem track_4d_elem_apply (e : Elem) (v : Fin 4 → ℝ) :
    Elem.track_4d e v 0 = Elem.matrix_x e 0 0 * v 0 + Elem.matrix_x e 0 1 * v 1 ∧
    Elem.track_4d e v 1 = Elem.matrix_x e 1 0 * v 0 + Elem.matrix_x e 1 1 * v 1 ∧
    Elem.track_4d e v 2 = Elem.matrix_y e 0 0 * v 2 + Elem.matrix_y e 0 1 * v 3 ∧
    Elem.track_4d e v 3 = Elem.matrix_y e 1 0 * v 2 + Elem.matrix_y e 1 1 * v 3 := by
  refine ⟨?_, ?_, ?_, ?_⟩ <;>
  · simp [Elem.track_4d, Elem.matrix_4d, Matrix.mulVec, Matrix.dotProduct,
      Fin.sum_univ_four]

/-- Horizontal components of `Beamline.track_4d` depend only on the
horizontal components of the input state. -/
theorem track_4d_decoupled_x (l : List Elem) (s t : Fin 4 → ℝ)
    (h0 : s 0 = t 0) (h1 : s 1 = t 1) :
    Beamline.track_4d l s 0 = Beamline.track_4d l t 0 ∧
    Beamline.track_4d l s 1 = Beamline.track_4d l t 1 := by
  induction l generalizing s t with
  | nil => exact ⟨h0, h1⟩
  | cons e rest ih =>
      show Beamline.track_4d rest (Elem.track_4d e s) 0 =
          Beamline.track_4d rest (Elem.track_4d e t) 0 ∧
        Beamline.track_4d rest (Elem.track_4d e s) 1 =
          Beamline.track_4d rest (Elem.track_4d e t) 1
      apply ih
      · rw [(track_4d_elem_apply e s).1, (track_4d_elem_apply e t).1, h0, h1]
      · rw [(track_4d_elem_apply e s).2.1, (track_4d_elem_apply e t).2.1, h0, h1]

/-- Vertical components of `Beamline.track_4d` depend only on the
vertical components of the input state. -/
theorem track_4d_decoupled_y (l : List Elem) (s t : Fin 4 → ℝ)
    (h2 : s 2 = t 2) (h3 : s 3 = t 3) :
    Beamline.track_4d l s 2 = Beamline.track_4d l t 2 ∧
    Beamline.track_4d l s 3 = Beamline.track_4d l t 3 := by
  induction l generalizing s t with
  | nil => exact ⟨h2, h3⟩
  | cons e rest ih =>
      show Beamline.track_4d rest (Elem.track_4d e s) 2 =
          Beamline.track_4d rest (Elem.track_4d e t) 2 ∧
        Beamline.track_4d rest (Elem.track_4d e s) 3 =
          Beamline.track_4d rest (Elem.track_4d e t) 3
      apply ih
      · rw [(track_4d_elem_apply e s).2.2.1, (track_4d_elem_apply e t).2.2.1, h2, h3]
      · rw [(track_4d_elem_apply e s).2.2.2, (track_4d_elem_apply e t).2.2.2, h2, h3]

/-- C10.  Plane decoupling of linear 4D transport: every element's
`matrix_4d` is block-diagonal — the horizontal matrix occupies
rows/columns 0..1, the vertical matrix rows/columns 2..3, with zeros
elsewhere — and therefore the horizontal output of `Beamline.track_4d`
agrees on any two input states agreeing in `(x, x')` regardless of
their `(y, y')` components, and symmetrically for the vertical
output. -/
theorem C10_plane_decoupling (e : Elem) (l : List Elem) (s t : Fin 4 → ℝ)
    (_he : e.linwf) (_hl : ∀ e2 ∈ l, e2.linwf) :
    (Elem.matrix_4d e 0 2 = 0 ∧ Elem.matrix_4d e 0 3 = 0 ∧
     Elem.matrix_4d e 1 2 = 0 ∧ Elem.matrix_4d e 1 3 = 0 ∧
     Elem.matrix_4d e 2 0 = 0 ∧ Elem.matrix_4d e 2 1 = 0 ∧
     Elem.matrix_4d e 3 0 = 0 ∧ Elem.matrix_4d e 3 1 = 0 ∧
     Beamline.blockX (Elem.matrix_4d e) = Elem.matrix_x e ∧
     Beamline.blockY (Elem.matrix_4d e) = Elem.matrix_y e) ∧
    (s 0 = t 0 → s 1 = t 1 →
      Beamline.track_4d l s 0 = Beamline.track_4d l t 0 ∧
      Beamline.track_4d l s 1 = Beamline.track_4d l t 1) ∧
    (s 2 = t 2 → s 3 = t 3 →
      Beamline.track_4d l s 2 = Beamline.track_4d l t 2 ∧
      Beamline.track_4d l s 3 = Beamline.track_4d l t 3) := by
  refine ⟨⟨?_, ?_, ?_, ?_, ?_, ?_, ?_, ?_, ?_, ?_⟩,
    fun h0 h1 => track_4d_decoupled_x l s t h0 h1,
    fun h2 h3 => track_4d_decoupled_y l s t h2 h3⟩
  · simp [Elem.matrix_4d]
  · simp [Elem.matrix_4d]
  · simp [Elem.matrix_4d]
  · simp [Elem.matrix_4d]
  · simp [Elem.matrix_4d]
  · simp [Elem.matrix_4d]
  · simp [Elem.matrix_4d, Matrix.vecHead, Matrix.vecTail]
  · simp [Elem.matrix_4d, Matrix.vecHead, Matrix.vecTail]
  · rw [show Beamline.blockX (Elem.matrix_4d e) =
        !![Elem.matrix_x e 0 0, Elem.matrix_x e 0 1;
           Elem.matrix_x e 1 0, Elem.matrix_x e 1 1] by
      simp [Beamline.blockX, Elem.matrix_4d]]
    exact (Matrix.eta_fin_two (Elem.matrix_x e)).symm
  · rw [show Beamline.blockY (Elem.matrix_4d e) =
        !![Elem.matrix_y e 0 0, Elem.matrix_y e 0 1;
           Elem.matrix_y e 1 0, Elem.matrix_y e 1 1] by
      simp [Beamline.blockY, Elem.matrix_4d]]
    exact (Matrix.eta_fin_two (Elem.matrix_y e)).symm

/-- Witness for C10 on `[Drift(1)]` with two states sharing `(x, x')`
but differing in `(y, y')`. -/
theorem C10_plane_decoupling_witness :
    Elem.linwf (Elem.drift 1) ∧ (∀ e2 ∈ ([Elem.drift 1] : List Elem), e2.linwf) ∧
    Beamline.blockX (Elem.matrix_4d (Elem.drift 1)) = Elem.matrix_x (Elem.drift 1) ∧
    Beamline.track_4d [Elem.drift 1] ![1, 2, 3, 4] 0 =
      Beamline.track_4d [Elem.drift 1] ![1, 2, 5, 6] 0 ∧
    Beamline.track_4d [Elem.drift 1] ![1, 2, 3, 4] 1 =
      Beamline.track_4d [Elem.drift 1] ![1, 2, 5, 6] 1 := by
  have he : Elem.linwf (Elem.drift 1) := trivial
  have hl : ∀ e2 ∈ ([Elem.drift 1] : List Elem), e2.linwf := by
    intro e2 h2
    simp only [List.mem_cons, List.not_mem_nil, or_false] at h2
    subst h2
    trivial
  have h := C10_plane_decoupling (Elem.drift 1) [Elem.drift 1] ![1, 2, 3, 4] ![1, 2, 5, 6]
    he hl
  exact ⟨he, hl, h.1.2.2.2.2.2.2.2.2.1, (h.2.1 rfl rfl).1, (h.2.1 rfl rfl).2⟩

/-- The turn loop of the aperture scan succeeds exactly when no state
reached within the first `T` turns leaves the `|x|, |y| ≤ 0.1`
aperture. -/
theorem aperture_turns_iff (l : List Elem) (T : ℕ) (s : Fin 4 → ℝ) :
    Beamline.aperture_turns l T s ↔
      ∀ tn : ℕ, 1 ≤ tn → tn ≤ T →
        |((Beamline.track_particle_nonlinear l)^[tn] s) 0| ≤ 0.1 ∧
        |((Beamline.track_particle_nonlinear l)^[tn] s) 2| ≤ 0.1 := by
  induction T generalizing s with
  | zero =>
      constructor
      · intro _ tn h1 h2
        omega
      · intro _
        trivial
  | succ T ih =>
      have hstep : Beamline.aperture_turns l (T + 1) s ↔
          (¬((0.1 : ℝ) < |Beamline.track_particle_nonlinear l s 0| ∨
              (0.1 : ℝ) < |Beamline.track_particle_nonlinear l s 2|) ∧
            Beamline.aperture_turns l T (Beamline.track_particle_nonlinear l s)) := by
        show (if (0.1 : ℝ) < |Beamline.track_particle_nonlinear l s 0| ∨
            (0.1 : ℝ) < |Beamline.track_particle_nonlinear l s 2| then False
          else Beamline.aperture_turns l T (Beamline.track_particle_nonlinear l s)) ↔ _
        by_cases hv : (0.1 : ℝ) < |Beamline.track_particle_nonlinear l s 0| ∨
            (0.1 : ℝ) < |Beamline.track_particle_nonlinear l s 2|
        · rw [if_pos hv]
          simp [hv]
        · rw [if_neg hv]
          simp [hv]
      rw [hstep, ih (Beamline.track_particle_nonlinear l s)]
      constructor
      · rintro ⟨hok, hrest⟩ tn h1 h2
        rw [not_or] at hok
        cases tn with
        | zero => omega
        | succ tm =>
            rw [Function.iterate_succ_apply]
            rcases Nat.eq_zero_or_pos tm with h0 | hpos
            · subst h0
              exact ⟨not_lt.mp hok.1, not_lt.mp hok.2⟩
            · exact hrest tm hpos (by omega)
      · intro H
        refine ⟨?_, ?_⟩
        · have h1 := H 1 le_rfl (by omega)
          rw [Function.iterate_one] at h1
          rw [not_or]
          exact ⟨not_lt.mpr h1.1, not_lt.mpr h1.2⟩
        · intro tn h1 h2
          have h3 := H (tn + 1) (by omega) (by omega)
          rw [Function.iterate_succ_apply] at h3
          exact h3

/-- Counterexample for C8: with 3 particles up to amplitude `0.003`,
the sweep produced by `np.linspace(0.001, max_amplitude, n_particles)`
is `0.001, 0.002, 0.003` — an arithmetic progression (equal successive
differences), not a geometric one (the middle term squared differs from
the product of the endpoints). -/
theorem C8_counterexample :
    Beamline.aperture_amplitudes 3 0.003 0 = 0.001 ∧
    Beamline.aperture_amplitudes 3 0.003 1 = 0.002 ∧
    Beamline.aperture_amplitudes 3 0.003 2 = 0.003 ∧
    Beamline.aperture_amplitudes 3 0.003 1 - Beamline.aperture_amplitudes 3 0.003 0 =
      Beamline.aperture_amplitudes 3 0.003 2 - Beamline.aperture_amplitudes 3 0.003 1 ∧
    Beamline.aperture_amplitudes 3 0.003 1 * Beamline.aperture_amplitudes 3 0.003 1 ≠
      Beamline.aperture_amplitudes 3 0.003 0 * Beamline.aperture_amplitudes 3 0.003 2 := by
  have h0 : Beamline.aperture_amplitudes 3 0.003 0 = 0.001 := by
    rw [Beamline.aperture_amplitudes]
    norm_num
  have h1 : Beamline.aperture_amplitudes 3 0.003 1 = 0.002 := by
    rw [Beamline.aperture_amplitudes]
    norm_num
  have h2 : Beamline.aperture_amplitudes 3 0.003 2 = 0.003 := by
    rw [Beamline.aperture_amplitudes]
    norm_num
  refine ⟨h0, h1, h2, ?_, ?_⟩
  · rw [h0, h1, h2]
    norm_num
  · rw [h0, h1, h2]
    norm_num

/-- C8 (amended).  `get_dynamic_aperture(n, max_amplitude)` with
`n ≥ 2` sweeps the initial horizontal amplitudes in arithmetic (linear,
not geometric) progression from the floor `0.001` up to
`max_amplitude`, and the parallel stability flag of each amplitude
holds exactly when the fresh test particle `[amp, 0, 0, 0]`, tracked
independently through the nonlinear path, stays within `|x| ≤ 0.1` and
`|y| ≤ 0.1` on every one of the 100 turns. -/
theorem C8_dynamic_aperture (l : List Elem) (n : ℕ) (maxAmp : ℝ) (hn : 2 ≤ n) :
    (∀ i : Fin n, (Beamline.get_dynamic_aperture l n maxAmp).1 i =
        0.001 + (i : ℝ) * (maxAmp - 0.001) / ((n : ℝ) - 1)) ∧
    (Beamline.get_dynamic_aperture l n maxAmp).1 ⟨0, by omega⟩ = 0.001 ∧
    (Beamline.get_dynamic_aperture l n maxAmp).1 ⟨n - 1, by omega⟩ = maxAmp ∧
    (∀ i : Fin n, ((Beamline.get_dynamic_aperture l n maxAmp).2 i ↔
        ∀ tn : ℕ, 1 ≤ tn → tn ≤ 100 →
          |((Beamline.track_particle_nonlinear l)^[tn]
              ![(Beamline.get_dynamic_aperture l n maxAmp).1 i, 0, 0, 0]) 0| ≤ 0.1 ∧
          |((Beamline.track_particle_nonlinear l)^[tn]
              ![(Beamline.get_dynamic_aperture l n maxAmp).1 i, 0, 0, 0]) 2| ≤ 0.1)) := by
  have hne1 : n ≠ 1 := by omega
  have hform : ∀ i : Fin n, (Beamline.get_dynamic_aperture l n maxAmp).1 i =
      0.001 + (i : ℝ) * (maxAmp - 0.001) / ((n : ℝ) - 1) := by
    intro i
    show Beamline.aperture_amplitudes n maxAmp i = _
    rw [Beamline.aperture_amplitudes, if_neg hne1]
  have hcast : ((n : ℝ) - 1) ≠ 0 := by
    have h2 : (2 : ℝ) ≤ (n : ℝ) := by exact_mod_cast hn
    linarith
  refine ⟨hform, ?_, ?_, ?_⟩
  · rw [hform ⟨0, by omega⟩]
    norm_num
  · rw [hform ⟨n - 1, by omega⟩]
    have hv : ((⟨n - 1, by omega⟩ : Fin n) : ℝ) = (n : ℝ) - 1 := by
      show ((n - 1 : ℕ) : ℝ) = (n : ℝ) - 1
      have h1 : 1 ≤ n := by omega
      push_cast [Nat.cast_sub h1]
      ring
    rw [hv]
    field_simp
  · intro i
    exact aperture_turns_iff l 100 ![(Beamline.get_dynamic_aperture l n maxAmp).1 i, 0, 0, 0]

/-- Witness for C8 on the empty lattice with two particles up to
amplitude `0.002`. -/
theorem C8_dynamic_aperture_witness :
    2 ≤ 2 ∧
    (Beamline.get_dynamic_aperture [] 2 0.002).1 ⟨0, by omega⟩ = 0.001 ∧
    (Beamline.get_dynamic_aperture [] 2 0.002).1 ⟨2 - 1, by omega⟩ = 0.002 ∧
    ((Beamline.get_dynamic_aperture [] 2 0.002).2 ⟨0, by omega⟩ ↔
      ∀ tn : ℕ, 1 ≤ tn → tn ≤ 100 →
        |((Beamline.track_particle_nonlinear [])^[tn]
            ![(Beamline.get_dynamic_aperture [] 2 0.002).1 ⟨0, by omega⟩, 0, 0, 0]) 0| ≤ 0.1 ∧
        |((Beamline.track_particle_nonlinear [])^[tn]
            ![(Beamline.get_dynamic_aperture [] 2 0.002).1 ⟨0, by omega⟩, 0, 0, 0]) 2| ≤ 0.1) := by
  have h := C8_dynamic_aperture [] 2 0.002 (le_refl 2)
  exact ⟨le_refl 2, h.2.1, h.2.2.1, h.2.2.2 ⟨0, by omega⟩⟩

end

end NuclearIT
